import Mathlib

/-!
Verification of the godata DataSet engine against its specification.

The definitions below are a shallow embedding of the Go sources
(`godata.go` and the dataset engine variant shipped alongside it).
Go strings are modelled as `List Char` where character-level scanning
matters and as `String` elsewhere; Go `any` values are modelled by the
`GoValue` tagged union; fallible operations (out-of-range slice access,
failing queries) return `Option` / `Except`.
-/

namespace GoData

/-- Dynamically-typed scalar value, modelling the Go `any` payload of a
`Variant` (restricted to the scalar kinds the claims exercise). -/
inductive GoValue where
  | nullV : GoValue
  | intV (i : Int) : GoValue
  | strV (s : String) : GoValue
  | boolV (b : Bool) : GoValue
deriving DecidableEq, Repr

/-- Direction of a bind parameter, from the Go constants `IN`, `OUT`, `INOUT`. -/
inductive ParamType where
  | IN : ParamType
  | OUT : ParamType
  | INOUT : ParamType
deriving DecidableEq, Repr

/-- Named directional bind variable, from the Go `Param` struct: a name, a
direction, the scalar `Value` and the per-batch `Values` list. -/
structure Param where
  name : String
  paramType : ParamType
  value : GoValue
  values : List GoValue
deriving DecidableEq, Repr

/-- Named textual substitution, from the Go `Macro` struct. -/
structure MacroDef where
  name : String
  value : GoValue
deriving DecidableEq, Repr

/-- Row of a materialized result set: upper-cased column name to value,
from the Go `Row` struct. -/
abbrev Row := List (String × GoValue)

/-- Master-detail link, from the Go `MasterSource` struct.  The linked
master `DataSet` is abstracted to the one capability the assembly code
uses: reading `FieldByName(name).AsValue()` on the master's current row. -/
structure MasterSource where
  dataSource : Option (String → GoValue)
  masterFields : List String
  detailFields : List String

/-- Fresh link state, from the Go constructor `NewMasterSource`. -/
def newMasterSource : MasterSource :=
  { dataSource := none, masterFields := [], detailFields := [] }

/-- DataSet state, from the Go `DataSet` struct.  The connection handle,
transaction and context are not part of the state model; query execution
is modelled by an oracle (`ConnOracle`) below. -/
structure DataSet where
  sqlLines : List String
  fields : List String
  params : List Param
  macros : List MacroDef
  rows : List Row
  index : Int
  recno : Int
  masterSource : MasterSource
  indexFieldNames : String

/-- Row count, from `func (ds *DataSet) Count() int { return len(ds.Rows) }`. -/
def DataSet.count (ds : DataSet) : Int := ds.rows.length

/-- End-of-set test, from
`func (ds *DataSet) Eof() bool { return ds.Count() == 0 || ds.Recno > ds.Count() }`. -/
def DataSet.eof (ds : DataSet) : Bool :=
  ds.count == 0 || decide (ds.count < ds.recno)

/-- Beginning-of-set test, from
`func (ds *DataSet) Bof() bool { return ds.Count() == 0 || ds.Recno == 1 }`. -/
def DataSet.bof (ds : DataSet) : Bool :=
  ds.count == 0 || ds.recno == 1

/-- Cursor reset, from `func (ds *DataSet) First()`: `Index=0`, `Recno=0`,
then `Recno=1` when any rows exist. -/
def DataSet.first (ds : DataSet) : DataSet :=
  { ds with index := 0, recno := if 0 < ds.count then 1 else 0 }

/-- Cursor advance, from `func (ds *DataSet) Next()`: increments `Index`
and `Recno` only when not at `Eof`. -/
def DataSet.next (ds : DataSet) : DataSet :=
  if ds.eof then ds else { ds with index := ds.index + 1, recno := ds.recno + 1 }

/-- Close, from `func (ds *DataSet) Close()` (identical in both source
variants): resets the cursor, clears the SQL buffer (`ds.Sql.Clear()`),
drops rows, and replaces fields/params/macros/master state with fresh
empty values.  The `Strings` buffer type itself is not under `src/`;
its `Clear` is modelled from the spec: the SQL text buffer is an ordered
fragment sequence and clearing empties it. -/
def DataSet.close (ds : DataSet) : DataSet :=
  { ds with
      index := 0, recno := 0,
      sqlLines := [],
      rows := [],
      fields := [],
      params := [],
      macros := [],
      masterSource := newMasterSource,
      indexFieldNames := "" }

/-- CloseNoClearSQL, from `func (ds *DataSet) CloseNoClearSQL()`: same as
`Close` but without the `ds.Sql.Clear()` call, so the SQL buffer is kept. -/
def DataSet.closeNoClearSQL (ds : DataSet) : DataSet :=
  { ds with
      index := 0, recno := 0,
      rows := [],
      fields := [],
      params := [],
      macros := [],
      masterSource := newMasterSource,
      indexFieldNames := "" }

/-! ### Open: query execution, reconnect-and-retry, row materialization -/

/-- Outcomes of the connection collaborator during one `Open` call:
the first `Query`, the `Ping` probe, the `Connection.Open` reconnect and
the retried `Query`.  Errors are their message strings. -/
structure ConnOracle where
  query1 : Except String (List Row)
  ping : Except String Unit
  reconnect : Except String Unit
  query2 : Except String (List Row)

/-- Result of an `Open` call together with the final DataSet state and
counters for the driver interactions performed. -/
structure OpenResult where
  result : Except String Unit
  state : DataSet
  queryAttempts : Nat
  reconnects : Nat

/-- Row materialization, from the row loop of `func (ds *DataSet) scan`:
each driver row is appended to `ds.Rows` in order. -/
def DataSet.scanRows (ds : DataSet) (rs : List Row) : DataSet :=
  { ds with rows := ds.rows ++ rs }

/-- Open, from `func (ds *DataSet) Open()` (dataset engine variant,
non-transaction path): clear rows and cursor, run the query; on failure
ping, on failed ping reconnect and retry the query once (returning the
original error when the reconnect fails); on successful ping return the
error wrapped as `could not open dataset %v\n`; on success scan all rows
and call `First`. -/
def openDS (ds : DataSet) (o : ConnOracle) : OpenResult :=
  let ds0 := { ds with rows := [], index := 0, recno := 0 }
  match o.query1 with
  | .ok rs => ⟨.ok (), (ds0.scanRows rs).first, 1, 0⟩
  | .error e =>
    match o.ping with
    | .ok _ => ⟨.error ("could not open dataset " ++ e ++ "\n"), ds0, 1, 0⟩
    | .error _ =>
      match o.reconnect with
      | .error _ => ⟨.error e, ds0, 1, 1⟩
      | .ok _ =>
        match o.query2 with
        | .error e2 => ⟨.error e2, ds0, 2, 1⟩
        | .ok rs => ⟨.ok (), (ds0.scanRows rs).first, 2, 1⟩

/-! ### ToStruct destination-shape dispatch -/

/-- Shape of a Go destination type as seen by `reflect`, restricted to
the kinds `ToStruct` inspects. -/
inductive GoType where
  | ptrT (t : GoType) : GoType
  | structT : GoType
  | sliceT (elem : GoType) : GoType
  | arrayT (elem : GoType) : GoType
  | intT : GoType
  | stringT : GoType
  | boolT : GoType
deriving DecidableEq, Repr

/-- Outcome of the shape dispatch at the top of `ToStruct`. -/
inductive BindDispatch where
  | errNotPointer : BindDispatch
  | errNotStructOrSlice : BindDispatch
  | bindSingle : BindDispatch
  | bindList : BindDispatch
deriving DecidableEq, Repr

/-- Shape dispatch, from `func (ds *DataSet) ToStruct(model any) error`:
a non-pointer is rejected; otherwise the pointed-to kind selects single
binding (`Struct`), list binding (`Slice`/`Array`) or an error.  The
element type of a slice or array is never inspected here. -/
def toStructDispatch : GoType → BindDispatch
  | .ptrT t =>
    match t with
    | .structT => .bindSingle
    | .sliceT _ => .bindList
    | .arrayT _ => .bindList
    | _ => .errNotStructOrSlice
  | _ => .errNotPointer

/-- Whether the dispatch proceeds to binding rather than erroring. -/
def dispatchProceeds (d : BindDispatch) : Bool :=
  d == .bindSingle || d == .bindList

/-- Pointed-to kinds accepted by the `ToStruct` switch. -/
def elemKindOk : GoType → Bool
  | .structT => true
  | .sliceT _ => true
  | .arrayT _ => true
  | _ => false

/-- Destination shapes for which the claim says binding may proceed:
pointer to a single struct, or pointer to a slice/array of structs. -/
def claimBindShape : GoType → Bool
  | .ptrT .structT => true
  | .ptrT (.sliceT .structT) => true
  | .ptrT (.arrayT .structT) => true
  | _ => false

/-! ### Master-detail SQL assembly -/

/-- Zero-padded decimal rendering, from `fmt.Sprintf("%04d", i)`. -/
def pad4 (i : Nat) : String :=
  let d := Nat.toDigits 10 i
  String.mk (List.replicate (4 - d.length) '0' ++ d)

/-- Carriage-return normalization, from `strings.Replace(sql, "\r", "\n", -1)`. -/
def replaceCRtoLF (l : List Char) : List Char :=
  l.map (fun c => if c = '\r' then '\n' else c)

/-- Newline indentation, from `strings.Replace(sql, "\n", "\n ", -1)`. -/
def expandLF : List Char → List Char
  | [] => []
  | c :: t => if c = '\n' then '\n' :: ' ' :: expandLF t else c :: expandLF t

/-- Cosmetic newline normalization applied at the end of `GetSql` and
`GetSqlMasterDetail`. -/
def normalizeSql (s : String) : String :=
  String.mk (expandLF (replaceCRtoLF s.data))

/-- Modelled from the spec: `SetInputParam` (its `Params` receiver lives
in a repository file that is not under `src/`) registers a named input
parameter — an existing parameter of that name is given the new value
and the `IN` direction, otherwise a fresh parameter is appended. -/
def setInputParam (ps : List Param) (nm : String) (v : GoValue) : List Param :=
  if ps.any (fun p => p.name == nm) then
    ps.map (fun p => if p.name == nm then { p with paramType := .IN, value := v } else p)
  else
    ps ++ [{ name := nm, paramType := .IN, value := v, values := [] }]

/-- Where-clause loop of `GetSqlMasterDetail`: iterates over
`MasterFields` by index, reads `DetailFields[i]` (a fault — `none` —
when out of range), forms the alias from the master field name and the
zero-padded index, joins clauses with `" and "` except after the last,
and registers each alias as an input parameter holding the master's
current-row value. -/
def mdLoop (lookup : String → GoValue) (df : List String) :
    List String → Nat → String → List Param → Option (String × List Param)
  | [], _, acc, ps => some (acc, ps)
  | m :: rest, i, acc, ps =>
    match df[i]? with
    | none => none
    | some d =>
      let aliasName := m ++ pad4 i
      let acc' := acc ++ d ++ " = :" ++ aliasName ++ (if rest.isEmpty then "" else " and ")
      mdLoop lookup df rest (i + 1) acc' (setInputParam ps aliasName (lookup m))

/-- GetSqlMasterDetail, from `func (ds *DataSet) GetSqlMasterDetail()`
(the `GetSql` output is taken as `baseSql`).  Returns the assembled SQL,
the updated parameter list and whether the misconfiguration diagnostic
was printed; `none` models the out-of-range fault on `DetailFields`. -/
def getSqlMasterDetail (ms : MasterSource) (baseSql : String) (ps : List Param) :
    Option (String × List Param × Bool) :=
  match ms.dataSource with
  | none => some (normalizeSql baseSql, ps, false)
  | some lookup =>
    if ms.masterFields.length != 0 || ms.detailFields.length != 0 then
      match mdLoop lookup ms.detailFields ms.masterFields 0 "" ps with
      | none => none
      | some (w, ps') =>
        if w != "" then
          some (normalizeSql ("select * from (" ++ baseSql ++ ") t where " ++ w), ps', false)
        else
          some (normalizeSql baseSql, ps', false)
    else
      some (normalizeSql baseSql, ps, true)

/-- Clause list describing the loop's where-clause: clause `i` pairs the
detail field with the alias built from the MASTER field name and the
zero-padded index. -/
def mdClauses (df : List String) : List String → Nat → List String
  | [], _ => []
  | m :: rest, i => (df.getD i "" ++ " = :" ++ (m ++ pad4 i)) :: mdClauses df rest (i + 1)

/-- Conjunction rendering of a clause list with `and` separators. -/
def joinAnd : List String → String
  | [] => ""
  | [c] => c
  | c :: rest => c ++ " and " ++ joinAnd rest

/-- Parameter registrations performed by the master-detail loop, in
order: alias `master_i ++ pad4 i` bound to the master row's value of the
field `master_i`. -/
def regParams (lookup : String → GoValue) : List String → Nat → List Param → List Param
  | [], _, ps => ps
  | m :: rest, i, ps =>
    regParams lookup rest (i + 1) (setInputParam ps (m ++ pad4 i) (lookup m))

/-! ### Batch execution -/

/-- Driver-bindable argument, from the `sql.Named` / `sql.Out` cases of
`GetParamsBatch`. -/
inductive BindArg where
  | inArg (name : String) (v : GoValue) : BindArg
  | outArg (name : String) (v : GoValue) : BindArg
  | inOutArg (name : String) (v : GoValue) : BindArg
deriving DecidableEq, Repr

/-- Direction dispatch of one parameter binding. -/
def mkBindArg (pt : ParamType) (nm : String) (v : GoValue) : BindArg :=
  match pt with
  | .IN => .inArg nm v
  | .OUT => .outArg nm v
  | .INOUT => .inOutArg nm v

/-- GetParamsBatch, from `func (ds *DataSet) GetParamsBatch(index int)`:
for every parameter in list order the value `Values[index]` is bound; an
out-of-range index is a fault (`none`) — there is no fallback to the
scalar `Value`. -/
def getParamsBatch : List Param → Nat → Option (List BindArg)
  | [], _ => some []
  | p :: rest, index =>
    match p.values[index]? with
    | none => none
    | some v => (getParamsBatch rest index).map (fun args => mkBindArg p.paramType p.name v :: args)

/-- Execution loop of `ExecBatch`: runs while iterations remain, aborting
on the first failing execution; the counter in the result is the number
of executions performed. -/
def execBatchLoop (ps : List Param) (exec : Nat → List BindArg → Except String Unit) :
    Nat → Nat → Option (Except String Unit × Nat)
  | 0, _ => some (.ok (), 0)
  | remaining + 1, i =>
    match getParamsBatch ps i with
    | none => none
    | some args =>
      match exec i args with
      | .error e => some (.error e, 1)
      | .ok _ => (execBatchLoop ps exec remaining (i + 1)).map (fun r => (r.1, r.2 + 1))

/-- ExecBatch, from `func (ds *DataSet) ExecBatch(size int) error`: the
statement is prepared once and then executed in a loop bounded by
`ds.Params.BatchSize`; the `size` argument is never read by the loop.
`exec` abstracts one `stmt.Exec` call on the prepared statement. -/
def execBatch (size : Nat) (batchSize : Nat) (ps : List Param)
    (exec : Nat → List BindArg → Except String Unit) :
    Option (Except String Unit × Nat) :=
  execBatchLoop ps exec batchSize 0

/-! ### Prepare: bind-variable auto-discovery -/

/-- Word characters of the Go regexp class `\w`: ASCII letters, digits
and underscore. -/
def isWordChar (c : Char) : Bool :=
  c.isAlpha || c.isDigit || c == '_'

/-- One attempted match of the Go regexp pattern (a space, a colon and
`\w+`) at the current position: succeeds when the first two characters
are a space and a colon followed by at least one word character,
capturing the maximal word-character run and the remaining text. -/
def matchHead (l : List Char) : Option (List Char × List Char) :=
  match l with
  | c1 :: c2 :: rest =>
    if c1 = ' ' ∧ c2 = ':' ∧ rest.takeWhile isWordChar ≠ [] then
      some (rest.takeWhile isWordChar, rest.dropWhile isWordChar)
    else none
  | _ => none

/-- Token scan of `Prepare` in `godata.go`, from
`regexp.MustCompile` of the space-colon-`\w+` pattern with
`FindAllStringSubmatch`: successive non-overlapping leftmost matches,
advancing one character when the pattern does not match here.  The fuel
is the text length; every step consumes at least one character. -/
def scanParamsAux : Nat → List Char → List (List Char)
  | 0, _ => []
  | _ + 1, [] => []
  | fuel + 1, c :: rest =>
    match matchHead (c :: rest) with
    | some (w, rest2) => w :: scanParamsAux fuel rest2
    | none => scanParamsAux fuel rest

/-- Discovered bind-variable names, in match order. -/
def scanParams (l : List Char) : List (List Char) :=
  scanParamsAux l.length l

/-- Prepare, from `func (ds *DataSet) Prepare()` in `godata.go`: every
match of the pattern is appended to the parameter list as an
empty-valued input parameter, without checking whether the name is
already registered. -/
def prepare (ps : List Param) (sqlText : List Char) : List Param :=
  ps ++ (scanParams sqlText).map
    (fun w => { name := String.mk w, paramType := .IN, value := .strV "", values := [] })

/-! ### PostgreSQL positional placeholder translation -/

/-- Dialect identity, from the `DialectType` enumeration read off the
bound connection; only the `POSTGRESQL` case triggers translation. -/
inductive DialectType where
  | POSTGRESQL : DialectType
  | OTHER : DialectType
deriving DecidableEq, Repr

/-- Delimiters accepted after a placeholder token, from the inner switch
of `replaceParamPG`. -/
def isDelimPG (c : Char) : Bool :=
  c == ' ' || c == ',' || c == '(' || c == ')' || c == '=' || c == '|' || c == '[' || c == ']'

/-- Boundary test for the text following a token: end of string or a
delimiter character. -/
def pgBoundary : List Char → Bool
  | [] => true
  | c :: _ => isDelimPG c

/-- Leftmost occurrence index, from Go `strings.Index`. -/
def firstIdx : List Char → List Char → Option Nat
  | [], pat => if pat.isPrefixOf ([] : List Char) then some 0 else none
  | c :: t, pat =>
    if pat.isPrefixOf (c :: t) then some 0 else (firstIdx t pat).map (· + 1)

/-- Body of `replaceParamPG`, with explicit recursion fuel: the Go
function recurses on the suffix after each found occurrence, so fuel
equal to the text length suffices whenever `param` is nonempty (as at
every call site, where `param` is `":" + name`). -/
def rppAux : Nat → List Char → List Char → Nat → List Char × Nat
  | 0, sqlText, _, n => (sqlText, n)
  | fuel + 1, sqlText, param, n =>
    match firstIdx sqlText param with
    | none => (sqlText, n)
    | some i =>
      let ok : Bool :=
        if i + param.length = sqlText.length then true
        else pgBoundary (sqlText.drop (i + param.length))
      let r := rppAux fuel (sqlText.drop (i + param.length)) param n
      if ok then
        (sqlText.take i ++ '$' :: (Nat.toDigits 10 r.2 ++ r.1), r.2)
      else
        (sqlText.take i ++ param ++ r.1, r.2)

/-- replaceParamPG, from
`func replaceParamPG(sql, param string, paramNumber int) (string, int)`. -/
def replaceParamPG (sqlText param : List Char) (n : Nat) : List Char × Nat :=
  rppAux sqlText.length sqlText param n

/-- Loop of `replaceAllParam` for the `POSTGRESQL` dialect: per registered
parameter in list order, rewrite `":" + name` with the 1-based position. -/
def replaceAllParamLoop : List (List Char) → Nat → List Char → List Char
  | [], _, s => s
  | nm :: rest, k, s => replaceAllParamLoop rest (k + 1) (replaceParamPG s (':' :: nm) k).1

/-- replaceAllParam, from `func (ds *DataSet) replaceAllParam(sql string)`:
translation runs only for the `POSTGRESQL` dialect; the parameter at
0-based list position `i` is rewritten to `$(i+1)`. -/
def replaceAllParam (dialect : DialectType) (paramNames : List (List Char))
    (sqlText : List Char) : List Char :=
  match dialect with
  | .POSTGRESQL => replaceAllParamLoop paramNames 1 sqlText
  | .OTHER => sqlText

/-- Modelled from the spec wording of 4.4, for refinement against
`replaceParamPG`: scan the text left to right; where the literal token
`:name` occurs followed by a delimiter or the end of the text, emit `$n`
and continue after the token; otherwise emit the current character and
advance by one. -/
def specScanAux : Nat → List Char → List Char → Nat → List Char
  | 0, sqlText, _, _ => sqlText
  | _ + 1, [], _, _ => []
  | fuel + 1, c :: rest, nameChars, n =>
    if (':' :: nameChars).isPrefixOf (c :: rest) &&
        pgBoundary ((c :: rest).drop (nameChars.length + 1)) then
      '$' :: (Nat.toDigits 10 n ++
        specScanAux fuel ((c :: rest).drop (nameChars.length + 1)) nameChars n)
    else
      c :: specScanAux fuel rest nameChars n

/-- Specification-side scan with fuel set to the text length. -/
def specScan (sqlText nameChars : List Char) (n : Nat) : List Char :=
  specScanAux sqlText.length sqlText nameChars n

/-! ## Concrete states used by witnesses and counterexamples -/

/-- Sample open DataSet with one SQL fragment and two materialized rows. -/
def sampleDS : DataSet :=
  { sqlLines := ["select * from t"],
    fields := ["ID"],
    params := [],
    macros := [],
    rows := [[("ID", GoValue.intV 1)], [("ID", GoValue.intV 2)]],
    index := 0,
    recno := 1,
    masterSource := newMasterSource,
    indexFieldNames := "" }

/-! ## Claim C3: effect of Close on the SQL text buffer -/

/-- Claim C3, counterexample: `Close` does not leave the SQL text buffer
unchanged — on a DataSet whose buffer holds the fragment `select * from t`,
the buffer is empty after `Close`, so the claim's frame condition fails. -/
theorem c3_close_clears_sql_cex :
    sampleDS.close.sqlLines = [] ∧ sampleDS.close.sqlLines ≠ sampleDS.sqlLines := by
  exact ⟨rfl, by decide⟩

/-- Claim C3 (amended): `Close` discards rows, parameters, macros and
master-source state, resets the cursor to `index = recno = 0`, and ALSO
clears the SQL text buffer; it is the separate variant `CloseNoClearSQL`
that discards the same state while leaving the SQL text unchanged. -/
theorem c3_close_amended (ds : DataSet) :
    ds.close.rows = [] ∧ ds.close.params = [] ∧ ds.close.macros = [] ∧
    ds.close.masterSource.dataSource = none ∧
    ds.close.masterSource.masterFields = [] ∧
    ds.close.masterSource.detailFields = [] ∧
    ds.close.index = 0 ∧ ds.close.recno = 0 ∧
    ds.close.sqlLines = [] ∧
    ds.closeNoClearSQL.sqlLines = ds.sqlLines ∧
    ds.closeNoClearSQL.rows = [] ∧ ds.closeNoClearSQL.params = [] ∧
    ds.closeNoClearSQL.macros = [] ∧
    ds.closeNoClearSQL.masterSource.dataSource = none ∧
    ds.closeNoClearSQL.index = 0 ∧ ds.closeNoClearSQL.recno = 0 :=
  ⟨rfl, rfl, rfl, rfl, rfl, rfl, rfl, rfl, rfl, rfl, rfl, rfl, rfl, rfl, rfl, rfl⟩

/-! ## Claim C8: cursor iteration invariant -/

/-- Claim C8: starting from `First` on a non-empty row set, iterating
`Next` preserves the rows, keeps `recno = index + 1` at every step, the
index walks through `min k count`, and `Eof` first becomes true after
exactly `Count()` steps — so the iteration visits exactly `Count()` rows
(one per index `0, …, count-1`). -/
theorem c8_cursor_iteration (ds : DataSet) (h : ds.rows ≠ []) (k : Nat) :
    (DataSet.next^[k] ds.first).rows = ds.rows ∧
    (DataSet.next^[k] ds.first).recno = (DataSet.next^[k] ds.first).index + 1 ∧
    (DataSet.next^[k] ds.first).index = ((min k ds.rows.length : Nat) : Int) ∧
    ((DataSet.next^[k] ds.first).eof = true ↔ ds.rows.length ≤ k) := by
  have hlen : 0 < ds.rows.length := List.length_pos.mpr h
  induction k with
  | zero =>
    simp only [Function.iterate_zero, id_eq]
    have h1 : ds.first.rows = ds.rows := rfl
    have h3 : ds.first.recno = 1 := by
      show (if (0 : Int) < ds.count then (1 : Int) else 0) = 1
      rw [if_pos]
      show (0 : Int) < ds.rows.length
      exact_mod_cast hlen
    refine ⟨h1, ?_, ?_, ?_⟩
    · rw [h3]
      rfl
    · show (0 : Int) = _
      simp
    · simp only [DataSet.eof, DataSet.count, h1, h3, Bool.or_eq_true, beq_iff_eq,
        decide_eq_true_eq]
      omega
  | succ k ih =>
    obtain ⟨hrows, hrec, hidx, heof⟩ := ih
    rw [Function.iterate_succ_apply']
    set s := DataSet.next^[k] ds.first with hs
    by_cases hk : ds.rows.length ≤ k
    · have he : s.eof = true := heof.mpr hk
      have hid : s.next = s := by
        simp [DataSet.next, he]
      rw [hid]
      refine ⟨hrows, hrec, ?_, ?_⟩
      · rw [hidx]
        omega
      · rw [heof]
        omega
    · have he : s.eof = false := by
        cases hef : s.eof with
        | false => rfl
        | true => exact absurd (heof.mp hef) hk
      simp only [DataSet.next, he, Bool.false_eq_true, if_false]
      refine ⟨hrows, by simp [hrec], ?_, ?_⟩
      · show s.index + 1 = _
        simp only [hidx]
        omega
      · simp only [DataSet.eof, DataSet.count, hrows, hrec, hidx,
          Bool.or_eq_true, beq_iff_eq, decide_eq_true_eq]
        omega

/-- Witness for C8 at a concrete two-row DataSet and one `Next` step. -/
theorem c8_cursor_iteration_witness :
    (DataSet.next^[1] sampleDS.first).rows = sampleDS.rows ∧
    (DataSet.next^[1] sampleDS.first).recno = (DataSet.next^[1] sampleDS.first).index + 1 ∧
    (DataSet.next^[1] sampleDS.first).index = ((min 1 sampleDS.rows.length : Nat) : Int) ∧
    ((DataSet.next^[1] sampleDS.first).eof = true ↔ sampleDS.rows.length ≤ 1) :=
  c8_cursor_iteration sampleDS (by decide) 1

/-! ## Claim C9: ToStruct destination-shape checks -/

/-- Claim C9, counterexample: a pointer to a slice of ints is a pointer
to something other than a single struct or a slice/array of structs, yet
the `ToStruct` dispatch proceeds to list binding instead of returning an
error. -/
theorem c9_tostruct_shape_cex :
    dispatchProceeds (toStructDispatch (.ptrT (.sliceT .intT))) = true ∧
    claimBindShape (.ptrT (.sliceT .intT)) = false :=
  ⟨rfl, rfl⟩

/-- Claim C9 (amended): `ToStruct` returns an error synchronously, before
any binding, when the target is not a pointer or is a pointer to a kind
other than struct, slice or array; binding proceeds exactly when the
pointed-to kind is struct (single record) or slice/array (record list) —
the element type of a slice or array is never inspected. -/
theorem c9_tostruct_dispatch_amended (t : GoType) :
    ((∀ u, t ≠ .ptrT u) → toStructDispatch t = .errNotPointer) ∧
    (∀ u, t = .ptrT u →
      dispatchProceeds (toStructDispatch t) = elemKindOk u ∧
      (elemKindOk u = false → toStructDispatch t = .errNotStructOrSlice) ∧
      (u = .structT → toStructDispatch t = .bindSingle) ∧
      (∀ e, (u = .sliceT e ∨ u = .arrayT e) → toStructDispatch t = .bindList)) := by
  constructor
  · intro hnp
    cases t with
    | ptrT u => exact absurd rfl (hnp u)
    | structT => rfl
    | sliceT e => rfl
    | arrayT e => rfl
    | intT => rfl
    | stringT => rfl
    | boolT => rfl
  · intro u hu
    subst hu
    refine ⟨?_, ?_, ?_, ?_⟩
    · cases u <;> rfl
    · intro hk
      cases u <;> first | rfl | simp [elemKindOk] at hk
    · intro hs
      subst hs
      rfl
    · intro e he
      rcases he with he | he <;> subst he <;> rfl

/-- Witness for C9 (amended) at the pointer-to-struct shape. -/
theorem c9_tostruct_dispatch_amended_witness :
    toStructDispatch (.ptrT .structT) = .bindSingle :=
  ((c9_tostruct_dispatch_amended (.ptrT .structT)).2 .structT rfl).2.2.1 rfl

/-! ## Claim C10: failed Open discards previous rows -/

/-- Claim C10: whenever `Open` returns an error, the result set of any
previous successful open is already discarded — the row store is empty
and both cursor positions are zero. -/
theorem c10_open_error_resets (ds : DataSet) (o : ConnOracle) (e : String)
    (h : (openDS ds o).result = .error e) :
    (openDS ds o).state.rows = [] ∧ (openDS ds o).state.index = 0 ∧
    (openDS ds o).state.recno = 0 ∧ (openDS ds o).state.count = 0 := by
  obtain ⟨q1, p, r, q2⟩ := o
  cases q1 with
  | ok rs => simp [openDS] at h
  | error e1 =>
    cases p with
    | ok u => simp [openDS, DataSet.count]
    | error pe =>
      cases r with
      | error re => simp [openDS, DataSet.count]
      | ok u =>
        cases q2 with
        | ok rs => simp [openDS] at h
        | error e2 => simp [openDS, DataSet.count]

/-- Witness for C10: a concrete failed open (query fails, ping succeeds)
leaves the pre-populated DataSet with no rows and a zeroed cursor. -/
theorem c10_open_error_resets_witness :
    (openDS sampleDS ⟨.error "E", .ok (), .ok (), .ok []⟩).state.rows = [] ∧
    (openDS sampleDS ⟨.error "E", .ok (), .ok (), .ok []⟩).state.index = 0 ∧
    (openDS sampleDS ⟨.error "E", .ok (), .ok (), .ok []⟩).state.recno = 0 ∧
    (openDS sampleDS ⟨.error "E", .ok (), .ok (), .ok []⟩).state.count = 0 :=
  c10_open_error_resets sampleDS ⟨.error "E", .ok (), .ok (), .ok []⟩
    ("could not open dataset E\n") rfl

/-! ## Claim C6: reconnect-and-retry behaviour of Open -/

/-- Claim C6, counterexample: when the query fails with error `E` and the
ping succeeds, `Open` does not surface the original error unchanged — it
returns a new `could not open dataset` error instead. -/
theorem c6_open_wraps_error_cex :
    (openDS sampleDS ⟨.error "E", .ok (), .ok (), .ok []⟩).result =
      .error "could not open dataset E\n" ∧
    ("could not open dataset E\n" : String) ≠ "E" :=
  ⟨rfl, by decide⟩

/-- Claim C6 (amended): when the first query fails, the engine pings the
connection; a failed ping triggers exactly one reconnect attempt, the
original error being returned when the reconnect fails and the query
being retried exactly once otherwise (the retry's outcome is surfaced);
when the ping succeeds, the error is surfaced wrapped in a
`could not open dataset` message rather than unchanged; at most one
reconnect and at most two query attempts ever happen per call. -/
theorem c6_open_retry_amended (ds : DataSet) (o : ConnOracle) :
    (openDS ds o).reconnects ≤ 1 ∧ (openDS ds o).queryAttempts ≤ 2 ∧
    (∀ rs, o.query1 = .ok rs → (openDS ds o).result = .ok () ∧
      (openDS ds o).queryAttempts = 1 ∧ (openDS ds o).reconnects = 0) ∧
    (∀ e, o.query1 = .error e → o.ping = .ok () →
      (openDS ds o).result = .error ("could not open dataset " ++ e ++ "\n") ∧
      (openDS ds o).queryAttempts = 1 ∧ (openDS ds o).reconnects = 0) ∧
    (∀ e pe ce, o.query1 = .error e → o.ping = .error pe → o.reconnect = .error ce →
      (openDS ds o).result = .error e ∧ (openDS ds o).queryAttempts = 1 ∧
      (openDS ds o).reconnects = 1) ∧
    (∀ e pe, o.query1 = .error e → o.ping = .error pe → o.reconnect = .ok () →
      (openDS ds o).queryAttempts = 2 ∧ (openDS ds o).reconnects = 1 ∧
      (∀ rs, o.query2 = .ok rs → (openDS ds o).result = .ok ()) ∧
      (∀ e2, o.query2 = .error e2 → (openDS ds o).result = .error e2)) := by
  obtain ⟨q1, p, r, q2⟩ := o
  cases q1 <;> cases p <;> cases r <;> cases q2 <;> simp [openDS]

/-- Witness for C6 (amended) at a concrete oracle whose query fails and
whose ping succeeds. -/
theorem c6_open_retry_amended_witness :
    (openDS sampleDS ⟨.error "E", .ok (), .ok (), .ok []⟩).result =
      .error ("could not open dataset " ++ "E" ++ "\n") ∧
    (openDS sampleDS ⟨.error "E", .ok (), .ok (), .ok []⟩).queryAttempts = 1 ∧
    (openDS sampleDS ⟨.error "E", .ok (), .ok (), .ok []⟩).reconnects = 0 :=
  (c6_open_retry_amended sampleDS ⟨.error "E", .ok (), .ok (), .ok []⟩).2.2.2.1 "E" rfl rfl

/-! ## Claim C5: batch execution -/

/-- Out-of-range safety of the per-iteration binding: when every
parameter has a value at the requested batch index, `GetParamsBatch`
succeeds. -/
lemma getParamsBatch_some (ps : List Param) (i : Nat)
    (h : ∀ p ∈ ps, i < p.values.length) :
    ∃ args, getParamsBatch ps i = some args := by
  induction ps with
  | nil => exact ⟨[], rfl⟩
  | cons p rest ih =>
    obtain ⟨args, hargs⟩ := ih (fun q hq => h q (List.mem_cons_of_mem p hq))
    have hi : i < p.values.length := h p (List.mem_cons_self p rest)
    refine ⟨mkBindArg p.paramType p.name (p.values[i]) :: args, ?_⟩
    simp [getParamsBatch, List.getElem?_eq_getElem hi, hargs]

/-- Loop behaviour of `ExecBatch` when every execution succeeds: exactly
`rem` executions are performed. -/
lemma execBatchLoop_all_ok (ps : List Param) (exec : Nat → List BindArg → Except String Unit)
    (hex : ∀ i args, exec i args = .ok ()) :
    ∀ (rem i : Nat), (∀ p ∈ ps, i + rem ≤ p.values.length) →
      execBatchLoop ps exec rem i = some (.ok (), rem) := by
  intro rem
  induction rem with
  | zero => intro i _; rfl
  | succ r ih =>
    intro i h
    have hi : ∀ p ∈ ps, i < p.values.length := fun p hp => by have := h p hp; omega
    obtain ⟨args, hargs⟩ := getParamsBatch_some ps i hi
    simp [execBatchLoop, hargs, hex i args,
      ih (i + 1) (fun p hp => by have := h p hp; omega)]

/-- Loop behaviour of `ExecBatch` on the first failing execution: the
loop aborts there, having performed the failing execution and the
preceding ones only. -/
lemma execBatchLoop_first_error (ps : List Param)
    (exec : Nat → List BindArg → Except String Unit) (f : Nat) (e : String)
    (hok : ∀ a args, a < f → exec a args = .ok ())
    (herr : ∀ args, exec f args = .error e) :
    ∀ (rem i : Nat), (∀ p ∈ ps, i + rem ≤ p.values.length) → i ≤ f → f < i + rem →
      execBatchLoop ps exec rem i = some (.error e, f - i + 1) := by
  intro rem
  induction rem with
  | zero => intro i _ hif hfr; omega
  | succ r ih =>
    intro i h hif hfr
    have hi : ∀ p ∈ ps, i < p.values.length := fun p hp => by have := h p hp; omega
    obtain ⟨args, hargs⟩ := getParamsBatch_some ps i hi
    by_cases hfi : i = f
    · subst hfi
      simp [execBatchLoop, hargs, herr args]
    · have hlt : i < f := by omega
      have harith : f - (i + 1) + 1 + 1 = f - i + 1 := by omega
      simp [execBatchLoop, hargs, hok i args hlt,
        ih (i + 1) (fun p hp => by have := h p hp; omega) (by omega) (by omega), harith]

/-- Claim C5, counterexample: `ExecBatch 3` performs zero executions when
`Params.BatchSize` is `0` — the `size` argument is ignored — and a
parameter lacking a per-index value is an out-of-range fault (`none`)
rather than a fallback to its scalar value. -/
theorem c5_execbatch_cex :
    execBatch 3 0 [] (fun _ _ => .ok ()) = some (.ok (), 0) ∧ (0 : Nat) ≠ 3 ∧
    execBatch 1 1 [⟨"a", .IN, .intV 5, []⟩] (fun _ _ => .ok ()) = none :=
  ⟨rfl, by decide, rfl⟩

/-- Claim C5 (amended): `ExecBatch` prepares once and executes exactly
`Params.BatchSize` times, ignoring its `size` argument entirely;
execution `i` binds for every parameter the value at batch index `i`
with no scalar fallback; the first failing execution aborts the loop,
no further iteration being attempted. -/
theorem c5_execbatch_amended (bs : Nat) (ps : List Param)
    (exec : Nat → List BindArg → Except String Unit) :
    (∀ size size', execBatch size bs ps exec = execBatch size' bs ps exec) ∧
    ((∀ p ∈ ps, bs ≤ p.values.length) → (∀ i args, exec i args = .ok ()) →
      ∀ size, execBatch size bs ps exec = some (.ok (), bs)) ∧
    (∀ j e, j < bs → (∀ p ∈ ps, bs ≤ p.values.length) →
      (∀ a args, a < j → exec a args = .ok ()) → (∀ args, exec j args = .error e) →
      ∀ size, execBatch size bs ps exec = some (.error e, j + 1)) := by
  refine ⟨fun _ _ => rfl, ?_, ?_⟩
  · intro hv hex size
    exact execBatchLoop_all_ok ps exec hex bs 0 (fun p hp => by have := hv p hp; omega)
  · intro j e hj hv hok herr size
    have hmain := execBatchLoop_first_error ps exec j e hok herr bs 0
      (fun p hp => by have := hv p hp; omega) (by omega) (by omega)
    simpa using hmain

/-- Witness for C5 (amended): two batched values and an always-succeeding
statement give exactly two executions. -/
theorem c5_execbatch_amended_witness :
    execBatch 0 2 [⟨"a", .IN, .intV 9, [.intV 1, .intV 2]⟩] (fun _ _ => .ok ()) =
      some (.ok (), 2) :=
  (c5_execbatch_amended 2 [⟨"a", .IN, .intV 9, [.intV 1, .intV 2]⟩] (fun _ _ => .ok ())).2.1
    (by decide) (fun _ _ => rfl) 0

/-! ## Claim C7: Prepare's bind-variable auto-discovery -/

/-- Inversion of a successful pattern match at the current position. -/
lemma matchHead_some {l w r : List Char} (h : matchHead l = some (w, r)) :
    ∃ rest, l = ' ' :: ':' :: rest ∧ w = rest.takeWhile isWordChar ∧ w ≠ [] ∧
      r = rest.dropWhile isWordChar := by
  match l with
  | [] => simp [matchHead] at h
  | [c] => simp [matchHead] at h
  | c1 :: c2 :: rest =>
    simp only [matchHead] at h
    split_ifs at h with hc
    · obtain ⟨h1, h2, h3⟩ := hc
      subst h1
      subst h2
      simp only [Option.some.injEq, Prod.mk.injEq] at h
      exact ⟨rest, rfl, h.1.symm, h.1 ▸ h3, h.2.symm⟩

/-- Characters kept by `takeWhile` satisfy the predicate. -/
lemma all_takeWhile (p : Char → Bool) (l : List Char) : (l.takeWhile p).all p = true := by
  induction l with
  | nil => rfl
  | cons c t ih =>
    cases hc : p c with
    | true => simp [List.takeWhile, hc, ih]
    | false => simp [List.takeWhile, hc]

/-- Soundness of the `Prepare` scan: every discovered name is a nonempty
run of word characters that occurs in the text immediately preceded by a
space and a colon. -/
lemma scanParamsAux_sound :
    ∀ (fuel : Nat) (l w : List Char), w ∈ scanParamsAux fuel l →
      (∃ pre post, l = pre ++ ' ' :: ':' :: (w ++ post)) ∧ w ≠ [] ∧
        w.all isWordChar = true := by
  intro fuel
  induction fuel with
  | zero =>
    intro l w hw
    simp [scanParamsAux] at hw
  | succ f ih =>
    intro l w hw
    match l with
    | [] => simp [scanParamsAux] at hw
    | c :: rest =>
      rw [scanParamsAux] at hw
      cases hm : matchHead (c :: rest) with
      | none =>
        rw [hm] at hw
        obtain ⟨⟨pre, post, hdec⟩, hne, hall⟩ := ih rest w hw
        exact ⟨⟨c :: pre, post, by rw [hdec]; rfl⟩, hne, hall⟩
      | some pr =>
        obtain ⟨w2, r2⟩ := pr
        rw [hm] at hw
        obtain ⟨rest2, hl, hw2, hne2, hr2⟩ := matchHead_some hm
        obtain ⟨hc, hrest⟩ : c = ' ' ∧ rest = ':' :: rest2 := by
          injection hl with hl1 hl2
          exact ⟨hl1, hl2⟩
        subst hc
        subst hrest
        rcases List.mem_cons.mp hw with hww | hwrec
        · subst hww
          refine ⟨⟨[], rest2.dropWhile isWordChar, ?_⟩, hne2, ?_⟩
          · simp [hw2, List.takeWhile_append_dropWhile]
          · rw [hw2]
            exact all_takeWhile isWordChar rest2
        · obtain ⟨⟨pre, post, hdec⟩, hne, hall⟩ := ih r2 w hwrec
          refine ⟨⟨' ' :: ':' :: (w2 ++ pre), post, ?_⟩, hne, hall⟩
          have hsplit : rest2 = w2 ++ r2 := by
            rw [hw2, hr2]
            exact (List.takeWhile_append_dropWhile isWordChar rest2).symm
          rw [hsplit, hdec]
          simp

/-- Claim C7, counterexample: with the parameter `a` already registered,
`Prepare` on SQL mentioning `:a` appends a second parameter named `a`
instead of skipping the registered name, and a `:identifier` token that
is not preceded by a space is not discovered at all. -/
theorem c7_prepare_duplicates_cex :
    prepare [⟨"a", .IN, .intV 1, []⟩] ("x = :a".data) =
      [⟨"a", .IN, .intV 1, []⟩, ⟨"a", .IN, .strV "", []⟩] ∧
    (prepare [⟨"a", .IN, .intV 1, []⟩] ("x = :a".data)).map Param.name ≠ ["a"] ∧
    prepare [] ("x=:a".data) = [] :=
  ⟨rfl, by decide, rfl⟩

/-- Claim C7 (amended): `Prepare` scans the assembled SQL for matches of
the space-colon-identifier pattern (a token must be preceded by a space
to be found); every discovered name is a nonempty word-character run
occurring that way in the text; the names are appended in first-seen
order as empty-valued input parameters — without any check against
already-registered names, which are appended again. -/
theorem c7_prepare_amended :
    (∀ sqlText w, w ∈ scanParams sqlText →
      (∃ pre post, sqlText = pre ++ ' ' :: ':' :: (w ++ post)) ∧ w ≠ [] ∧
        w.all isWordChar = true) ∧
    (prepare [] ("select * from t where x = :a and y = :b".data)).map Param.name =
      ["a", "b"] ∧
    prepare [⟨"a", .IN, .intV 1, []⟩] ("x = :a".data) =
      [⟨"a", .IN, .intV 1, []⟩, ⟨"a", .IN, .strV "", []⟩] := by
  refine ⟨fun s w hw => scanParamsAux_sound s.length s w hw, ?_, ?_⟩ <;> rfl

/-- Witness for C7 (amended): the name `a` discovered in `x = :a` indeed
occurs preceded by a space and a colon. -/
theorem c7_prepare_amended_witness :
    (∃ pre post, ("x = :a".data) = pre ++ ' ' :: ':' :: (['a'] ++ post)) ∧
    (['a'] : List Char) ≠ [] ∧ (['a'] : List Char).all isWordChar = true :=
  c7_prepare_amended.1 ("x = :a".data) ['a'] (by decide)

/-! ## Claims C2 and C4: master-detail SQL assembly -/

/-- Nonemptiness of a single where-clause. -/
lemma mdClause_ne_empty (d m : String) (i : Nat) : d ++ " = :" ++ (m ++ pad4 i) ≠ "" := by
  intro hcon
  have hlen := congrArg String.length hcon
  have h4 : (" = :" : String).length = 4 := rfl
  have h0 : ("" : String).length = 0 := rfl
  simp only [String.length_append, h4, h0] at hlen
  omega

/-- Nonemptiness of the joined where-clause for a nonempty master list. -/
lemma joinAnd_mdClauses_ne_empty (df : List String) (m : String) (mf : List String)
    (i : Nat) : joinAnd (mdClauses df (m :: mf) i) ≠ "" := by
  cases mf with
  | nil => simpa [mdClauses, joinAnd] using mdClause_ne_empty (df.getD i "") m i
  | cons m2 mf2 =>
    simp only [mdClauses, joinAnd]
    intro hcon
    have hlen := congrArg String.length hcon
    have h5 : (" and " : String).length = 5 := rfl
    have h4 : (" = :" : String).length = 4 := rfl
    have h0 : ("" : String).length = 0 := rfl
    simp only [String.length_append, h5, h4, h0] at hlen
    omega

/-- One unfolding step of the master-detail loop at a master field whose
detail counterpart exists. -/
lemma mdLoop_cons (lookup : String → GoValue) (df : List String) (m : String)
    (rest : List String) (i : Nat) (acc : String) (ps : List Param)
    (hi : i < df.length) :
    mdLoop lookup df (m :: rest) i acc ps =
      mdLoop lookup df rest (i + 1)
        (acc ++ df[i] ++ " = :" ++ (m ++ pad4 i) ++ (if rest.isEmpty then "" else " and "))
        (setInputParam ps (m ++ pad4 i) (lookup m)) := by
  have hd : df[i]? = some (df[i]) := List.getElem?_eq_getElem hi
  simp only [mdLoop, hd]

/-- The master-detail loop equals the clause-join description and the
parameter-registration fold whenever the detail list is long enough. -/
lemma mdLoop_eq (lookup : String → GoValue) (df : List String) :
    ∀ (mf : List String) (i : Nat) (acc : String) (ps : List Param),
      i + mf.length ≤ df.length →
      mdLoop lookup df mf i acc ps =
        some (acc ++ joinAnd (mdClauses df mf i), regParams lookup mf i ps) := by
  intro mf
  induction mf with
  | nil =>
    intro i acc ps _
    simp [mdLoop, mdClauses, joinAnd, regParams]
  | cons m rest ih =>
    intro i acc ps h
    have hi : i < df.length := by
      simp only [List.length_cons] at h
      omega
    have hd : df[i]? = some (df[i]) := List.getElem?_eq_getElem hi
    have hgd : df.getD i "" = df[i] := by
      simp [List.getD_eq_getElem?_getD, hd]
    rw [mdLoop_cons lookup df m rest i acc ps hi,
      ih (i + 1) _ _ (by simp only [List.length_cons] at h ⊢; omega)]
    cases rest with
    | nil =>
      simp [mdClauses, joinAnd, regParams, hd, String.append_assoc]
    | cons m2 rest2 =>
      simp [mdClauses, joinAnd, regParams, hd, String.append_assoc]

/-- Fault of the master-detail loop when the detail list is shorter than
the master list. -/
lemma mdLoop_fault (lookup : String → GoValue) (df : List String) :
    ∀ (mf : List String) (i : Nat) (acc : String) (ps : List Param),
      mf ≠ [] → df.length < i + mf.length →
      mdLoop lookup df mf i acc ps = none := by
  intro mf
  induction mf with
  | nil =>
    intro i acc ps hne _
    exact absurd rfl hne
  | cons m rest ih =>
    intro i acc ps _ hlt
    by_cases hi : i < df.length
    · have hd : df[i]? = some (df[i]) := List.getElem?_eq_getElem hi
      have hrest : rest ≠ [] := by
        intro hcon
        subst hcon
        simp only [List.length_cons, List.length_nil] at hlt
        omega
      simp only [mdLoop, hd]
      exact ih (i + 1) _ _ hrest (by simp only [List.length_cons] at hlt ⊢; omega)
    · have hd : df[i]? = none := List.getElem?_eq_none (by omega)
      simp [mdLoop, hd]

/-- Claim C2, counterexample: with master field `M` and detail field `D`,
the alias is built from the MASTER field name (giving `D = :M0000` and a
parameter `M0000`), not from the detail field name as the claim states. -/
theorem c2_alias_uses_master_field_cex :
    getSqlMasterDetail ⟨some (fun _ => GoValue.strV "7"), ["M"], ["D"]⟩
      "select * from t" [] =
      some ("select * from (select * from t) t where D = :M0000",
        [⟨"M0000", .IN, .strV "7", []⟩], false) ∧
    ("select * from (select * from t) t where D = :M0000" : String) ≠
      "select * from (select * from t) t where D = :D0000" :=
  ⟨rfl, by decide⟩

/-- Claim C2 (amended): with a link attached and master/detail field
lists nonempty and of equal length, assembly wraps the SQL as
`select * from (<sql>) t where <detail_i> = :<alias_i> [and ...]` where
`alias_i` is the MASTER field name (not the detail field name) suffixed
with the zero-padded 4-digit index, and registers each alias as an input
parameter holding the master row's current value of that master field;
the spec's concrete `CODE` example, where master and detail names
coincide, holds as stated. -/
theorem c2_master_detail_wrapping_amended :
    (∀ (lookup : String → GoValue) (mf df : List String) (base : String) (ps : List Param),
      mf ≠ [] → mf.length = df.length →
      getSqlMasterDetail ⟨some lookup, mf, df⟩ base ps =
        some (normalizeSql ("select * from (" ++ base ++ ") t where " ++
          joinAnd (mdClauses df mf 0)), regParams lookup mf 0 ps, false)) ∧
    getSqlMasterDetail ⟨some (fun _ => GoValue.intV 7), ["CODE"], ["CODE"]⟩
      "select * from t" [] =
      some ("select * from (select * from t) t where CODE = :CODE0000",
        [⟨"CODE0000", .IN, .intV 7, []⟩], false) := by
  constructor
  · intro lookup mf df base ps hne hlen
    obtain ⟨m, mf2, rfl⟩ := List.exists_cons_of_ne_nil hne
    have hloop := mdLoop_eq lookup df (m :: mf2) 0 "" ps (by omega)
    have hw := joinAnd_mdClauses_ne_empty df m mf2 0
    simp [getSqlMasterDetail, hloop, hw]
  · rfl

/-- Witness for C2 (amended) at the spec's `CODE` master-detail example. -/
theorem c2_master_detail_wrapping_amended_witness :
    getSqlMasterDetail ⟨some (fun _ => GoValue.intV 7), ["CODE"], ["CODE"]⟩
      "select * from t" [] =
      some (normalizeSql ("select * from (" ++ "select * from t" ++ ") t where " ++
        joinAnd (mdClauses ["CODE"] ["CODE"] 0)),
        regParams (fun _ => GoValue.intV 7) ["CODE"] 0 [], false) :=
  c2_master_detail_wrapping_amended.1 (fun _ => GoValue.intV 7) ["CODE"] ["CODE"]
    "select * from t" [] (by decide) rfl

/-- Claim C4, counterexample: with master fields `["A"]` and no detail
fields the assembly faults (out-of-range access) instead of skipping the
wrapping non-fatally, and with no master fields but detail fields `["D"]`
the wrapping is skipped without any diagnostic. -/
theorem c4_master_detail_fault_cex :
    getSqlMasterDetail ⟨some (fun _ => GoValue.strV "7"), ["A"], []⟩
      "select * from t" [] = none ∧
    getSqlMasterDetail ⟨some (fun _ => GoValue.strV "7"), [], ["D"]⟩
      "select * from t" [] = some ("select * from t", [], false) :=
  ⟨rfl, rfl⟩

/-- Claim C4 (amended): a link whose two field lists are both empty is
skipped with the diagnostic; an empty master list with a nonempty detail
list is skipped silently (no diagnostic); a master list longer than the
detail list makes assembly fault with an out-of-range access instead of
proceeding. -/
theorem c4_misconfigured_link_amended (lookup : String → GoValue) (base : String)
    (ps : List Param) :
    getSqlMasterDetail ⟨some lookup, [], []⟩ base ps = some (normalizeSql base, ps, true) ∧
    (∀ d df2, getSqlMasterDetail ⟨some lookup, [], d :: df2⟩ base ps =
      some (normalizeSql base, ps, false)) ∧
    (∀ mf df, df.length < mf.length →
      getSqlMasterDetail ⟨some lookup, mf, df⟩ base ps = none) := by
  refine ⟨rfl, ?_, ?_⟩
  · intro d df2
    simp [getSqlMasterDetail, mdLoop]
  · intro mf df hlt
    have hne : mf ≠ [] := by
      intro hcon
      subst hcon
      simp only [List.length_nil] at hlt
      omega
    obtain ⟨m, mf2, rfl⟩ := List.exists_cons_of_ne_nil hne
    have hfault := mdLoop_fault lookup df (m :: mf2) 0 "" ps (by simp)
      (by simp only [List.length_cons] at hlt ⊢; omega)
    simp [getSqlMasterDetail, hfault]

/-- Witness for C4 (amended): the fault case at a concrete misconfigured
link with one master field and no detail fields. -/
theorem c4_misconfigured_link_amended_witness :
    getSqlMasterDetail ⟨some (fun _ => GoValue.strV "7"), ["A"], []⟩ "q" [] = none :=
  (c4_misconfigured_link_amended (fun _ => GoValue.strV "7") "q" []).2.2 ["A"] []
    (by decide)

/-! ## Claim C1: PostgreSQL placeholder translation

The refinement proof below relates the source function `replaceParamPG`
(leftmost-occurrence recursion) to the specification-side left-to-right
scanner `specScan`, for every parameter name free of colons — which
covers every `":" + name` parameter token. -/

/-- Boolean prefix test characterized by list decomposition. -/
lemma isPrefixOf_exists (p l : List Char) :
    p.isPrefixOf l = true ↔ ∃ t, l = p ++ t := by
  induction p generalizing l with
  | nil => simp [List.isPrefixOf]
  | cons a as ih =>
    cases l with
    | nil => simp [List.isPrefixOf]
    | cons b bs =>
      simp only [List.isPrefixOf, Bool.and_eq_true, beq_iff_eq, ih bs, List.cons_append,
        List.cons.injEq]
      constructor
      · rintro ⟨hab, t, ht⟩
        exact ⟨t, hab.symm, ht⟩
      · rintro ⟨t, hab, ht⟩
        exact ⟨hab.symm, t, ht⟩

/-- A failed `strings.Index` search means the pattern occurs at no
position of the text. -/
lemma firstIdx_none {l p : List Char} (h : firstIdx l p = none) :
    ∀ j, p.isPrefixOf (l.drop j) = false := by
  induction l with
  | nil =>
    intro j
    simp only [firstIdx] at h
    cases hp : p.isPrefixOf ([] : List Char) with
    | false => simpa using hp
    | true => simp [hp] at h
  | cons c t ih =>
    intro j
    simp only [firstIdx] at h
    cases hp : p.isPrefixOf (c :: t) with
    | true => simp [hp] at h
    | false =>
      simp [hp] at h
      cases j with
      | zero => simpa using hp
      | succ j2 => exact ih h j2

/-- A successful `strings.Index` search: the pattern occurs at the found
position, at no earlier position, and fits inside the text. -/
lemma firstIdx_some {l p : List Char} :
    ∀ {i : Nat}, firstIdx l p = some i →
      p.isPrefixOf (l.drop i) = true ∧ (∀ j, j < i → p.isPrefixOf (l.drop j) = false) ∧
        i + p.length ≤ l.length := by
  induction l with
  | nil =>
    intro i h
    simp only [firstIdx] at h
    cases hp : p.isPrefixOf ([] : List Char) with
    | false => simp [hp] at h
    | true =>
      simp only [hp, if_true, Option.some.injEq] at h
      subst h
      obtain ⟨t, ht⟩ := (isPrefixOf_exists p []).mp hp
      have hlen3 : ([] : List Char).length = p.length + t.length := by
        rw [ht, List.length_append]
      simp only [List.length_nil] at hlen3
      refine ⟨hp, fun j hj => absurd hj (by omega), by omega⟩
  | cons c t ih =>
    intro i h
    simp only [firstIdx] at h
    cases hp : p.isPrefixOf (c :: t) with
    | true =>
      simp only [hp, if_true, Option.some.injEq] at h
      subst h
      obtain ⟨t2, ht2⟩ := (isPrefixOf_exists p (c :: t)).mp hp
      have hlen3 : (c :: t).length = p.length + t2.length := by
        rw [ht2, List.length_append]
      refine ⟨hp, fun j hj => absurd hj (by omega), by omega⟩
    | false =>
      simp [hp] at h
      obtain ⟨i2, hfi, rfl⟩ := h
      obtain ⟨h1, h2, h3⟩ := ih hfi
      refine ⟨h1, ?_, by simp only [List.length_cons]; omega⟩
      intro j hj
      cases j with
      | zero => simpa using hp
      | succ j2 => exact h2 j2 (by omega)

/-- The second component returned by `replaceParamPG` is always the
number it was given: every occurrence shares one positional number. -/
lemma rppAux_snd : ∀ (fuel : Nat) (l p : List Char) (n : Nat),
    (rppAux fuel l p n).2 = n := by
  intro fuel
  induction fuel with
  | zero => intro l p n; rfl
  | succ f ih =>
    intro l p n
    simp only [rppAux]
    cases hfi : firstIdx l p with
    | none => rfl
    | some i =>
      simp only [ih]
      split
      · rfl
      · split <;> rfl

/-- Fuel irrelevance for the `replaceParamPG` recursion: any fuel at
least the text length gives the same result. -/
lemma rppAux_fuel {p : List Char} (hp : p ≠ []) :
    ∀ (f1 : Nat) (l : List Char) (f2 n : Nat), l.length ≤ f1 → l.length ≤ f2 →
      rppAux f1 l p n = rppAux f2 l p n := by
  have hnil : firstIdx ([] : List Char) p = none := by
    obtain ⟨c, cs, rfl⟩ := List.exists_cons_of_ne_nil hp
    simp [firstIdx, List.isPrefixOf]
  intro f1
  induction f1 with
  | zero =>
    intro l f2 n h1 h2
    have hl : l = [] := List.length_eq_zero.mp (by omega)
    subst hl
    cases f2 with
    | zero => rfl
    | succ g => simp [rppAux, hnil]
  | succ f ih =>
    intro l f2 n h1 h2
    cases l with
    | nil =>
      cases f2 with
      | zero => simp [rppAux, hnil]
      | succ g => simp [rppAux, hnil]
    | cons c t =>
      cases f2 with
      | zero =>
        simp only [List.length_cons] at h2
        omega
      | succ g =>
        cases hfi : firstIdx (c :: t) p with
        | none => simp [rppAux, hfi]
        | some i =>
          obtain ⟨hpre, hmin, hle⟩ := firstIdx_some hfi
          have hplen : 0 < p.length := List.length_pos.mpr hp
          have hdlen : ((c :: t).drop (i + p.length)).length ≤ f := by
            simp only [List.length_drop, List.length_cons] at *
            omega
          have hdlen2 : ((c :: t).drop (i + p.length)).length ≤ g := by
            simp only [List.length_drop, List.length_cons] at *
            omega
          simp only [rppAux, hfi]
          rw [ih ((c :: t).drop (i + p.length)) g n hdlen hdlen2]

/-- Fuel irrelevance for the specification-side scanner. -/
lemma specScanAux_fuel (name : List Char) :
    ∀ (f1 : Nat) (l : List Char) (f2 n : Nat), l.length ≤ f1 → l.length ≤ f2 →
      specScanAux f1 l name n = specScanAux f2 l name n := by
  intro f1
  induction f1 with
  | zero =>
    intro l f2 n h1 h2
    have hl : l = [] := List.length_eq_zero.mp (by omega)
    subst hl
    cases f2 with
    | zero => rfl
    | succ g => rfl
  | succ f ih =>
    intro l f2 n h1 h2
    cases l with
    | nil =>
      cases f2 with
      | zero => rfl
      | succ g => rfl
    | cons c t =>
      cases f2 with
      | zero =>
        simp only [List.length_cons] at h2
        omega
      | succ g =>
        have hb1 : t.length ≤ f := by
          simp only [List.length_cons] at h1
          omega
        have hb2 : t.length ≤ g := by
          simp only [List.length_cons] at h2
          omega
        simp only [specScanAux]
        cases hcond : ((':' :: name).isPrefixOf (c :: t) &&
            pgBoundary ((c :: t).drop (name.length + 1))) with
        | false =>
          simp only [Bool.false_eq_true, if_false]
          rw [ih t g n hb1 hb2]
        | true =>
          simp only [eq_self_iff_true, if_true]
          simp only [Bool.and_eq_true] at hcond
          obtain ⟨t2, ht2⟩ := (isPrefixOf_exists (':' :: name) (c :: t)).mp hcond.1
          have hlen2 : (c :: t).length = name.length + 1 + t2.length := by
            rw [ht2]
            simp [List.length_append]
            omega
          have hd1 : ((c :: t).drop (name.length + 1)).length ≤ f := by
            simp only [List.length_drop, List.length_cons] at *
            omega
          have hd2 : ((c :: t).drop (name.length + 1)).length ≤ g := by
            simp only [List.length_drop, List.length_cons] at *
            omega
          rw [ih ((c :: t).drop (name.length + 1)) g n hd1 hd2]

/-- Scanner walk over a match-free region: when no occurrence of the
token starts in the first `k` positions, the scanner copies those
characters verbatim. -/
lemma specScanAux_skip (name : List Char) (n : Nat) :
    ∀ (k : Nat) (l : List Char) (fuel : Nat), k ≤ l.length → l.length ≤ fuel →
      (∀ j, j < k → (':' :: name).isPrefixOf (l.drop j) = false) →
      specScanAux fuel l name n = l.take k ++ specScanAux (fuel - k) (l.drop k) name n := by
  intro k
  induction k with
  | zero =>
    intro l fuel hk hf hnom
    simp
  | succ k2 ih =>
    intro l fuel hk hf hnom
    cases l with
    | nil => simp at hk
    | cons c t =>
      cases fuel with
      | zero =>
        simp only [List.length_cons] at hf
        omega
      | succ f =>
        have h0 : (':' :: name).isPrefixOf (c :: t) = false := by
          simpa using hnom 0 (by omega)
        simp only [specScanAux, h0, Bool.false_and, Bool.false_eq_true, if_false]
        rw [ih t f (by simp only [List.length_cons] at hk; omega)
          (by simp only [List.length_cons] at hf; omega)
          (fun j hj => by simpa using hnom (j + 1) (by omega))]
        simp [Nat.succ_sub_succ]

/-- A colon-free name cannot overlap itself: no occurrence of the token
starts strictly inside another occurrence. -/
lemma token_no_overlap {name : List Char} (hn : ':' ∉ name) {l : List Char} {i : Nat}
    (hpre : (':' :: name).isPrefixOf (l.drop i) = true) :
    ∀ d, 1 ≤ d → d ≤ name.length → (':' :: name).isPrefixOf (l.drop (i + d)) = false := by
  intro d hd1 hd2
  obtain ⟨tail, htail⟩ := (isPrefixOf_exists _ _).mp hpre
  cases hcon : (':' :: name).isPrefixOf (l.drop (i + d)) with
  | false => rfl
  | true =>
    exfalso
    obtain ⟨d2, rfl⟩ : ∃ d2, d = d2 + 1 := ⟨d - 1, by omega⟩
    have hd2len : d2 < name.length := by omega
    have hx : l.drop (i + (d2 + 1)) = name.drop d2 ++ tail := by
      have h1 : l.drop (i + (d2 + 1)) = (l.drop i).drop (d2 + 1) := by
        rw [List.drop_drop]
      rw [h1, htail, List.cons_append, List.drop_succ_cons,
        List.drop_append_eq_append_drop]
      have : d2 - name.length = 0 := by omega
      rw [this, List.drop_zero]
    have hy : name.drop d2 = name[d2] :: name.drop (d2 + 1) :=
      List.drop_eq_getElem_cons hd2len
    rw [hx, hy, List.cons_append] at hcon
    obtain ⟨t3, ht3⟩ := (isPrefixOf_exists _ _).mp hcon
    have hhead : name[d2] = ':' := by
      have := congrArg (fun xs => List.head? xs) ht3
      simpa using this
    exact hn (hhead ▸ List.getElem_mem hd2len)

/-- Refinement of `replaceParamPG` by the specification scanner, by
strong induction on the text length. -/
lemma rpp_spec_aux {name : List Char} (hn : ':' ∉ name) :
    ∀ (N : Nat) (l : List Char), l.length ≤ N → ∀ (n : Nat),
      rppAux l.length l (':' :: name) n = (specScanAux l.length l name n, n) := by
  have hp : (':' :: name) ≠ [] := by simp
  intro N
  induction N with
  | zero =>
    intro l hN n
    have hl : l = [] := List.length_eq_zero.mp (by omega)
    subst hl
    rfl
  | succ N ih =>
    intro l hN n
    cases l with
    | nil => rfl
    | cons c t =>
      simp only [List.length_cons] at hN ⊢
      cases hfi : firstIdx (c :: t) (':' :: name) with
      | none =>
        have hspec := specScanAux_skip name n (c :: t).length (c :: t) ((c :: t).length)
          (by omega) (by omega) (fun j _ => firstIdx_none hfi j)
        rw [List.take_length, List.drop_length, Nat.sub_self] at hspec
        simp only [List.length_cons] at hspec
        rw [hspec]
        simp [rppAux, hfi, specScanAux]
      | some i =>
        obtain ⟨hpre, hmin, hle⟩ := firstIdx_some hfi
        simp only [List.length_cons] at hle
        obtain ⟨tail, htail⟩ := (isPrefixOf_exists _ _).mp hpre
        have hdroptail : (c :: t).drop (i + (name.length + 1)) = tail := by
          have h1 : (c :: t).drop (i + (name.length + 1)) =
              ((c :: t).drop i).drop (name.length + 1) := by
            rw [List.drop_drop]
          rw [h1, htail]
          have h2 : name.length + 1 = (':' :: name).length := by simp
          rw [h2, List.drop_left]
        have htlen : t.length + 1 = i + (name.length + 1) + tail.length := by
          have hlind := congrArg List.length htail
          simp only [List.length_drop, List.length_append, List.length_cons] at hlind
          omega
        have hrec : rppAux t.length ((c :: t).drop (i + (name.length + 1)))
            (':' :: name) n = (specScanAux tail.length tail name n, n) := by
          rw [hdroptail]
          have hfl : rppAux t.length tail (':' :: name) n =
              rppAux tail.length tail (':' :: name) n :=
            rppAux_fuel hp t.length tail tail.length n (by omega) (by omega)
          rw [hfl]
          simpa using ih tail (by omega) n
        have hok : (if i + (name.length + 1) = t.length + 1 then true
            else pgBoundary ((c :: t).drop (i + (name.length + 1)))) =
            pgBoundary tail := by
          by_cases hip : i + (name.length + 1) = t.length + 1
          · rw [if_pos hip]
            have htnil : tail = [] := by
              refine List.length_eq_zero.mp ?_
              omega
            rw [htnil]
            rfl
          · rw [if_neg hip, hdroptail]
        simp only [rppAux, hfi, List.length_cons, hok, hrec]
        have hskip := specScanAux_skip name n i (c :: t) (t.length + 1)
          (by simp only [List.length_cons]; omega) (Nat.le_refl _)
          (fun j hj => hmin j hj)
        rw [hskip, htail]
        have hconsform : (':' :: name) ++ tail = ':' :: (name ++ tail) := by simp
        have hfl2 : t.length + 1 - i = (name ++ tail).length + 1 := by
          simp only [List.length_append]
          omega
        rw [hconsform, hfl2]
        have hpre2 : (':' :: name).isPrefixOf (':' :: (name ++ tail)) = true :=
          (isPrefixOf_exists _ _).mpr ⟨tail, by simp⟩
        have hdrop2 : (':' :: (name ++ tail)).drop (name.length + 1) = tail := by
          rw [List.drop_succ_cons, List.drop_left]
        simp only [specScanAux, hpre2, hdrop2, Bool.true_and]
        cases hB : pgBoundary tail with
        | true =>
          simp only [eq_self_iff_true, if_true]
          rw [specScanAux_fuel name ((name ++ tail).length) tail tail.length n
            (by simp only [List.length_append]; omega) (Nat.le_refl _)]
        | false =>
          simp only [Bool.false_eq_true, if_false]
          have hshift : ∀ j, (name ++ tail).drop j = (c :: t).drop (i + (j + 1)) := by
            intro j
            have h1 : (c :: t).drop (i + (j + 1)) = ((c :: t).drop i).drop (j + 1) := by
              rw [List.drop_drop]
            rw [h1, htail, List.cons_append, List.drop_succ_cons]
          have hnom2 : ∀ j, j < name.length →
              (':' :: name).isPrefixOf ((name ++ tail).drop j) = false := by
            intro j hj
            rw [hshift j]
            exact token_no_overlap hn hpre (j + 1) (by omega) (by omega)
          have hskip3 := specScanAux_skip name n name.length (name ++ tail)
            ((name ++ tail).length) (by simp only [List.length_append]; omega)
            (Nat.le_refl _) hnom2
          rw [hskip3, List.take_left, List.drop_left]
          have hfl3 : (name ++ tail).length - name.length = tail.length := by
            simp only [List.length_append]
            omega
          rw [hfl3]
          simp [List.append_assoc, List.cons_append]

/-- Claim C1: PostgreSQL placeholder translation.  The first conjunct is
the algorithm characterization: for every colon-free parameter name,
`replaceParamPG` equals the left-to-right scanner `specScan` that
rewrites exactly the occurrences of the literal token `:name` followed
by a delimiter (space, comma, parenthesis, `=`, `|`, bracket) or the end
of the text to `$n` — so a token that continues as a longer identifier
is never rewritten — and it returns its positional number unchanged, so
all occurrences of one parameter share a single number.  The remaining
conjuncts are the spec's two concrete examples through
`replaceAllParam`, which numbers the parameter at 0-based list position
`i` as `$(i+1)`. -/
theorem c1_pg_placeholder_translation :
    (∀ (name sqlText : List Char) (n : Nat), ':' ∉ name →
      replaceParamPG sqlText (':' :: name) n = (specScan sqlText name n, n)) ∧
    replaceAllParam .POSTGRESQL ["a".data, "b".data]
      ("x = :a and y = :a and z = :b".data) = ("x = $1 and y = $1 and z = $2".data) ∧
    replaceAllParam .POSTGRESQL ["a".data] ("v = :ab".data) = ("v = :ab".data) := by
  refine ⟨?_, ?_, ?_⟩
  · intro name s n hn
    exact rpp_spec_aux hn s.length s (Nat.le_refl _) n
  · rfl
  · rfl

/-- Witness for C1: the characterization applied at the name `a`, the
text `y = :a` and the positional number 5. -/
theorem c1_pg_placeholder_translation_witness :
    replaceParamPG ("y = :a".data) (':' :: "a".data) 5 =
      (specScan ("y = :a".data) ("a".data) 5, 5) :=
  c1_pg_placeholder_translation.1 ("a".data) ("y = :a".data) 5 (by decide)

end GoData
